import Mathlib

/-!
# Verification of the scoped header-list builder and its patch script

The repository consists of `src/header_fix.py`, a patch script that inserts a
string-ownership fix into a Zig HTTP client file (`src/curl.zig`).  Two layers
are verified here:

* an embedding of the patch script itself (line-list transformation), taken
  directly from `src/header_fix.py`;
* a model of the scoped header-list builder (`StringRegistry` and
  `ForeignListAdapter`) that the inserted code implements.  The patched Zig
  file is not part of the repository sources, so this layer is modelled from
  the specification's contracts.

Buffers are identified by allocation ids handed out by an instrumented
allocator state that records which ids are live and every release call made.
-/

namespace HeaderFix

/- ## Part 1: the patch script, embedded from `src/header_fix.py` -/

/-- Character-list prefix test, used to embed Python's substring operator. -/
def charsPre : List Char → List Char → Bool
  | [], _ => true
  | _ :: _, [] => false
  | c :: cs, d :: ds => c == d && charsPre cs ds

/-- Character-list substring test: some suffix of the second list starts with
the first list.  This is Python's `pat in line` on strings. -/
def charsSub (pat : List Char) : List Char → Bool
  | [] => charsPre pat []
  | l :: ls => charsPre pat (l :: ls) || charsSub pat ls

/-- `lineHas pat line` embeds Python's `pat in line` (substring containment). -/
def lineHas (pat line : String) : Bool :=
  charsSub pat.toList line.toList

/-- Anchor pattern of the first loop of `src/header_fix.py` (line 10). -/
def deferPat : String := "defer if (header_list)"

/-- Anchor pattern of the second loop of `src/header_fix.py` (line 24). -/
def appendPat : String := "header_list = c.curl_slist_append"

/-- The eight lines inserted after the first `deferPat` match
(`src/header_fix.py` lines 12-19). -/
def cleanupBlock : List String :=
  [ "\n"
  , "        var header_strings = std.ArrayList([]const u8).init(self.allocator);\n"
  , "        defer \x7b\n"
  , "            for (header_strings.items) |header_str| \x7b\n"
  , "                self.allocator.free(header_str);\n"
  , "            \x7d\n"
  , "            header_strings.deinit();\n"
  , "        \x7d\n" ]

/-- The line inserted before the first `appendPat` match
(`src/header_fix.py` line 26). -/
def registrationLine : String :=
  "            try header_strings.append(header_str);\n"

/-- First loop of the script: scan for the first line containing `pat`,
insert `block` directly after it, then stop (`break`).  Lines with no match
before them are kept as they are. -/
def insertAfterFirst (pat : String) (block : List String) : List String → List String
  | [] => []
  | l :: ls =>
    if lineHas pat l then l :: (block ++ ls)
    else l :: insertAfterFirst pat block ls

/-- Second loop of the script: scan for the first line containing `pat`,
insert the single line `ins` directly before it, then stop (`break`). -/
def insertBeforeFirst (pat : String) (ins : String) : List String → List String
  | [] => []
  | l :: ls =>
    if lineHas pat l then ins :: l :: ls
    else l :: insertBeforeFirst pat ins ls

/-- `src/header_fix.py` end to end on the file's line list: the cleanup-defer
insertion pass followed by the registration insertion pass. -/
def headerFix (lines : List String) : List String :=
  insertBeforeFirst appendPat registrationLine
    (insertAfterFirst deferPat cleanupBlock lines)

/- ## Part 2: the scoped header-list builder, modelled from the spec -/

/-- Modelled from the spec: the error kinds of §7 — `OutOfMemory` (allocation
failure during formatting or registry growth), `ForeignAppendFailed` (the
foreign primitive rejected an append), and the failure of the transfer call
itself, which is outside the core but needed to model its exit path. -/
inductive HError where
  | outOfMemory
  | foreignAppendFailed
  | transferFailed
deriving DecidableEq, Repr

/-- Modelled from the spec: the single allocator owned by the registry for
its lifetime (§5).  `store` records every allocation's contents (append-only
log), `live` the ids allocated and not yet released, `freed` every release
call made, in order and with multiplicity, so that leaks (`live ≠ []` at the
end) and double frees (`freed` not `Nodup`) are observable. -/
structure AllocState where
  nextId : Nat
  store : List String
  live : List Nat
  freed : List Nat
deriving DecidableEq, Repr

/-- Modelled from the spec: allocate a fresh buffer holding `contents`,
returning its id. -/
def allocBuf (a : AllocState) (contents : String) : Nat × AllocState :=
  (a.nextId,
   { nextId := a.nextId + 1
   , store := a.store ++ [contents]
   , live := a.live ++ [a.nextId]
   , freed := a.freed })

/-- Modelled from the spec: release buffer `b` through the allocator.  The
release call is recorded unconditionally, so a double free shows up as a
duplicate in `freed`. -/
def freeBuf (a : AllocState) (b : Nat) : AllocState :=
  { a with live := a.live.erase b, freed := a.freed ++ [b] }

/-- Modelled from the spec: `StringRegistry` (§3, §4.1), an ordered sequence
of owned buffer ids. -/
structure StringRegistry where
  bufs : List Nat
deriving DecidableEq, Repr

/-- Modelled from the spec: `register(buffer)` (§4.1).  `regOk` is whether
growing the backing storage succeeds; on failure the registry is unchanged,
`OutOfMemory` is signalled, and ownership of `b` stays with the caller. -/
def register (regOk : Bool) (r : StringRegistry) (b : Nat) :
    StringRegistry × Option HError :=
  if regOk then ({ bufs := r.bufs ++ [b] }, none)
  else (r, some HError.outOfMemory)

/-- Modelled from the spec: `releaseAll()` (§4.1) — release every owned
buffer through the registry's allocator, then empty the sequence. -/
def releaseAll (a : AllocState) (r : StringRegistry) :
    AllocState × StringRegistry :=
  (r.bufs.foldl freeBuf a, { bufs := [] })

/-- Modelled from the spec: `ForeignListAdapter` (§4.2) — the held foreign
list handle (the empty list is the null/empty-list sentinel) plus a count of
the foreign `list_free` calls made, so idempotence of `release` is
observable. -/
structure ForeignListAdapter where
  handle : List Nat
  foreignFrees : Nat
deriving DecidableEq, Repr

/-- Modelled from the spec: the foreign `list_append` primitive (§6) as seen
through the adapter.  `foreignOk` is the primitive's own success indicator;
on failure the previous handle stays valid (§9 open question, resolved as the
spec assumes). -/
def listAppend (foreignOk : Bool) (adp : ForeignListAdapter) (b : Nat) :
    ForeignListAdapter × Option HError :=
  if foreignOk then ({ adp with handle := adp.handle ++ [b] }, none)
  else (adp, some HError.foreignAppendFailed)

/-- Modelled from the spec: `currentList()` (§4.2) — borrow the held handle. -/
def currentList (adp : ForeignListAdapter) : List Nat :=
  adp.handle

/-- Modelled from the spec: `release()` (§4.2) — call the foreign
list-destroy primitive iff the handle is non-empty, then reset the handle to
the empty sentinel so a second call is a no-op. -/
def release (adp : ForeignListAdapter) : ForeignListAdapter :=
  if adp.handle = [] then adp
  else { handle := [], foreignFrees := adp.foreignFrees + 1 }

/-- Modelled from the spec: the combined per-request state — allocator,
registry, adapter, plus a monotone log of successful registrations and a
count of teardown executions, so "exactly N registered" and "teardown ran
exactly once" are observable. -/
structure Scope where
  alloc : AllocState
  reg : StringRegistry
  adp : ForeignListAdapter
  regLog : List Nat
  tdCount : Nat
deriving DecidableEq, Repr

/-- Modelled from the spec: the scope state at the start of header
preparation for one request (§3 lifecycle). -/
def initScope : Scope :=
  { alloc := { nextId := 0, store := [], live := [], freed := [] }
  , reg := { bufs := [] }
  , adp := { handle := [], foreignFrees := 0 }
  , regLog := []
  , tdCount := 0 }

/-- Modelled from the spec: one header key/value pair together with the
outcome oracles of the three fallible steps of `appendHeader` — formatting
allocation, registry growth, and the foreign append primitive. -/
structure HeaderStep where
  key : String
  value : String
  fmtOk : Bool
  regOk : Bool
  foreignOk : Bool
deriving DecidableEq, Repr

/-- Modelled from the spec: the formatted header line `"<key>: <value>"`
(§4.2). -/
def formatHeader (k v : String) : String :=
  k ++ ": " ++ v

/-- Modelled from the spec: `appendHeader(registry, key, value)` (§4.2) —
format the header into a newly allocated buffer, register it, and only on
registration success pass it to the foreign list-append primitive.  On
registration failure the caller retains ownership and frees the buffer on
that path (§4.1); on foreign-append failure the buffer stays registered. -/
def appendHeader (st : HeaderStep) (s : Scope) : Scope × Option HError :=
  if st.fmtOk = false then
    (s, some HError.outOfMemory)
  else
    let p := allocBuf s.alloc (formatHeader st.key st.value)
    match register st.regOk s.reg p.1 with
    | (_, some e) => ({ s with alloc := freeBuf p.2 p.1 }, some e)
    | (r1, none) =>
      let q := listAppend st.foreignOk s.adp p.1
      ({ s with alloc := p.2, reg := r1, regLog := s.regLog ++ [p.1], adp := q.1 },
       q.2)

/-- Modelled from the spec: header construction for a request — append each
header in order, aborting on the first failure (§4.2 failure semantics). -/
def appendHeaders : List HeaderStep → Scope → Scope × Option HError
  | [], s => (s, none)
  | st :: sts, s =>
    match appendHeader st s with
    | (s1, none) => appendHeaders sts s1
    | (s1, some e) => (s1, some e)

/-- Modelled from the spec: the transfer call, an opaque synchronous external
call that may fail (§5); it consumes `currentList` and touches none of the
core's state. -/
def transfer (transferOk : Bool) (s : Scope) : Scope × Option HError :=
  (s, if transferOk then none else some HError.transferFailed)

/-- Modelled from the spec: the combined scope-exit teardown — registry
`releaseAll` plus adapter `release`, counted once per execution. -/
def teardown (s : Scope) : Scope :=
  let p := releaseAll s.alloc s.reg
  { alloc := p.1
  , reg := p.2
  , adp := release s.adp
  , regLog := s.regLog
  , tdCount := s.tdCount + 1 }

/-- Modelled from the spec: one request's scope (§2 control flow) — build
the header list, run the transfer if construction succeeded, and run the
combined teardown on every exit path (normal return, construction failure,
transfer failure), as the inserted `defer` blocks guarantee. -/
def performRequest (steps : List HeaderStep) (transferOk : Bool) :
    Scope × Option HError :=
  match appendHeaders steps initScope with
  | (s1, some e) => (teardown s1, some e)
  | (s1, none) =>
    match transfer transferOk s1 with
    | (s2, e2) => (teardown s2, e2)

/-- A header step whose three fallible operations all succeed. -/
def okStep (kv : String × String) : HeaderStep :=
  { key := kv.1, value := kv.2, fmtOk := true, regOk := true, foreignOk := true }

/-- A fully successful step sequence for a list of header pairs. -/
def okSteps (hdrs : List (String × String)) : List HeaderStep :=
  hdrs.map okStep

/- ## Lemmas about the patch script -/

lemma insertAfterFirst_sublist (pat : String) (block ls : List String) :
    List.Sublist ls (insertAfterFirst pat block ls) := by
  induction ls with
  | nil => simp [insertAfterFirst]
  | cons l tl ih =>
    by_cases h : lineHas pat l
    · simp only [insertAfterFirst, h, if_true]
      exact List.Sublist.cons₂ l (List.sublist_append_right block tl)
    · simpa [insertAfterFirst, h] using List.Sublist.cons₂ l ih

lemma insertBeforeFirst_sublist (pat ins : String) (ls : List String) :
    List.Sublist ls (insertBeforeFirst pat ins ls) := by
  induction ls with
  | nil => simp [insertBeforeFirst]
  | cons l tl ih =>
    by_cases h : lineHas pat l
    · simp only [insertBeforeFirst, h, if_true]
      exact List.Sublist.cons ins (List.Sublist.refl (l :: tl))
    · simpa [insertBeforeFirst, h] using List.Sublist.cons₂ l ih

lemma insertAfterFirst_of_no_match (pat : String) (block : List String)
    {ls : List String} (h : ∀ x ∈ ls, lineHas pat x = false) :
    insertAfterFirst pat block ls = ls := by
  induction ls with
  | nil => rfl
  | cons l tl ih =>
    have hl : lineHas pat l = false := h l (by simp)
    simp [insertAfterFirst, hl, ih fun x hx => h x (by simp [hx])]

lemma insertBeforeFirst_of_no_match (pat ins : String)
    {ls : List String} (h : ∀ x ∈ ls, lineHas pat x = false) :
    insertBeforeFirst pat ins ls = ls := by
  induction ls with
  | nil => rfl
  | cons l tl ih =>
    have hl : lineHas pat l = false := h l (by simp)
    simp [insertBeforeFirst, hl, ih fun x hx => h x (by simp [hx])]

lemma insertAfterFirst_first_match (pat : String) (block : List String)
    {p : List String} (l : String) (q : List String)
    (hp : ∀ x ∈ p, lineHas pat x = false) (hl : lineHas pat l = true) :
    insertAfterFirst pat block (p ++ l :: q) = p ++ l :: (block ++ q) := by
  induction p with
  | nil => simp [insertAfterFirst, hl]
  | cons x tl ih =>
    have hx : lineHas pat x = false := hp x (by simp)
    simp [insertAfterFirst, hx, ih fun y hy => hp y (by simp [hy])]

lemma insertBeforeFirst_first_match (pat ins : String)
    {p : List String} (l : String) (q : List String)
    (hp : ∀ x ∈ p, lineHas pat x = false) (hl : lineHas pat l = true) :
    insertBeforeFirst pat ins (p ++ l :: q) = p ++ ins :: l :: q := by
  induction p with
  | nil => simp [insertBeforeFirst, hl]
  | cons x tl ih =>
    have hx : lineHas pat x = false := hp x (by simp)
    simp [insertBeforeFirst, hx, ih fun y hy => hp y (by simp [hy])]

/-- No line of the inserted cleanup block contains the registration anchor
pattern. -/
lemma cleanupBlock_no_appendPat :
    ∀ x ∈ cleanupBlock, lineHas appendPat x = false := by
  decide

/- ## Theorems about the patch script -/

/-- C8: the patch script only inserts lines — every line of the original
file appears in the output unchanged and in its original relative order, so
no existing line is modified or deleted. -/
theorem patch_only_inserts (lines : List String) :
    List.Sublist lines (headerFix lines) :=
  List.Sublist.trans
    (insertAfterFirst_sublist deferPat cleanupBlock lines)
    (insertBeforeFirst_sublist appendPat registrationLine
      (insertAfterFirst deferPat cleanupBlock lines))

/-- C9: each insertion is applied at most once, at the first matching line
only — the cleanup block goes right after the first line containing the
defer anchor, the registration line right before the first line containing
the append anchor, and everything after that first match (later occurrences
included) passes through verbatim. -/
theorem patch_inserts_at_first_match_only :
    (∀ p l q, (∀ x ∈ p, lineHas deferPat x = false) →
      lineHas deferPat l = true →
      insertAfterFirst deferPat cleanupBlock (p ++ l :: q) =
        p ++ l :: (cleanupBlock ++ q)) ∧
    (∀ p l q, (∀ x ∈ p, lineHas appendPat x = false) →
      lineHas appendPat l = true →
      insertBeforeFirst appendPat registrationLine (p ++ l :: q) =
        p ++ registrationLine :: l :: q) :=
  ⟨fun _ l q hp hl => insertAfterFirst_first_match deferPat cleanupBlock l q hp hl,
   fun _ l q hp hl =>
     insertBeforeFirst_first_match appendPat registrationLine l q hp hl⟩

/-- Witness for C9 at a concrete file: the anchors sit behind a non-matching
line, and a second occurrence of each anchor after the first is left
unmodified. -/
theorem patch_inserts_at_first_match_only_witness :
    insertAfterFirst deferPat cleanupBlock
        (["x\n"] ++ "  defer if (header_list) a;\n" ::
          ["y\n", "  defer if (header_list) b;\n"]) =
      ["x\n"] ++ "  defer if (header_list) a;\n" ::
        (cleanupBlock ++ ["y\n", "  defer if (header_list) b;\n"]) ∧
    insertBeforeFirst appendPat registrationLine
        (["x\n"] ++ "  header_list = c.curl_slist_append(h, s);\n" ::
          ["  header_list = c.curl_slist_append(h, t);\n"]) =
      ["x\n"] ++ registrationLine ::
        "  header_list = c.curl_slist_append(h, s);\n" ::
          ["  header_list = c.curl_slist_append(h, t);\n"] :=
  ⟨patch_inserts_at_first_match_only.1 ["x\n"] _ _ (by decide) (by decide),
   patch_inserts_at_first_match_only.2 ["x\n"] _ _ (by decide) (by decide)⟩

/-- C10: the two insertions are independent — with no defer anchor present
the registration line is still inserted before the first append anchor (even
though the block declaring `header_strings` was never inserted), and with no
append anchor present the cleanup block is still inserted after the first
defer anchor. -/
theorem patch_insertions_independent :
    (∀ p l q, (∀ x ∈ p ++ l :: q, lineHas deferPat x = false) →
      (∀ x ∈ p, lineHas appendPat x = false) →
      lineHas appendPat l = true →
      headerFix (p ++ l :: q) = p ++ registrationLine :: l :: q) ∧
    (∀ p l q, (∀ x ∈ p ++ l :: q, lineHas appendPat x = false) →
      (∀ x ∈ p, lineHas deferPat x = false) →
      lineHas deferPat l = true →
      headerFix (p ++ l :: q) = p ++ l :: (cleanupBlock ++ q)) := by
  constructor
  · intro p l q hnod hp hl
    unfold headerFix
    rw [insertAfterFirst_of_no_match deferPat cleanupBlock hnod]
    exact insertBeforeFirst_first_match appendPat registrationLine l q hp hl
  · intro p l q hnoa hp hl
    unfold headerFix
    rw [insertAfterFirst_first_match deferPat cleanupBlock l q hp hl]
    refine insertBeforeFirst_of_no_match appendPat registrationLine ?_
    intro x hx
    rcases List.mem_append.1 hx with hx | hx
    · exact hnoa x (by simp [hx])
    rcases List.mem_cons.1 hx with rfl | hx
    · exact hnoa x (by simp)
    rcases List.mem_append.1 hx with hx | hx
    · exact cleanupBlock_no_appendPat x hx
    · exact hnoa x (by simp [hx])

/-- Witness for C10 at concrete files: a file with only an append anchor
still gets the registration line; a file with only a defer anchor still gets
the cleanup block. -/
theorem patch_insertions_independent_witness :
    headerFix (["x\n"] ++ "  header_list = c.curl_slist_append(h, s);\n" :: ["y\n"]) =
      ["x\n"] ++ registrationLine ::
        "  header_list = c.curl_slist_append(h, s);\n" :: ["y\n"] ∧
    headerFix (["x\n"] ++ "  defer if (header_list) a;\n" :: ["y\n"]) =
      ["x\n"] ++ "  defer if (header_list) a;\n" :: (cleanupBlock ++ ["y\n"]) :=
  ⟨patch_insertions_independent.1 ["x\n"] _ ["y\n"] (by decide) (by decide) (by decide),
   patch_insertions_independent.2 ["x\n"] _ ["y\n"] (by decide) (by decide) (by decide)⟩

/- ## Lemmas about the builder model -/

lemma foldl_freeBuf_freed (bs : List Nat) (a : AllocState) :
    (bs.foldl freeBuf a).freed = a.freed ++ bs := by
  induction bs generalizing a with
  | nil => simp
  | cons b tl ih =>
    rw [List.foldl_cons, ih (freeBuf a b)]
    simp [freeBuf]

lemma foldl_freeBuf_nextId (bs : List Nat) (a : AllocState) :
    (bs.foldl freeBuf a).nextId = a.nextId := by
  induction bs generalizing a with
  | nil => rfl
  | cons b tl ih =>
    rw [List.foldl_cons, ih (freeBuf a b)]
    rfl

lemma foldl_freeBuf_store (bs : List Nat) (a : AllocState) :
    (bs.foldl freeBuf a).store = a.store := by
  induction bs generalizing a with
  | nil => rfl
  | cons b tl ih =>
    rw [List.foldl_cons, ih (freeBuf a b)]
    rfl

lemma foldl_freeBuf_live_nil (bs : List Nat) (a : AllocState)
    (h : a.live = bs) : (bs.foldl freeBuf a).live = [] := by
  induction bs generalizing a with
  | nil => simpa using h
  | cons b tl ih =>
    have hfb : (freeBuf a b).live = tl := by
      simp [freeBuf, h, List.erase_cons_head]
    simpa using ih (freeBuf a b) hfb

lemma teardown_alloc_freed (s : Scope) :
    (teardown s).alloc.freed = s.alloc.freed ++ s.reg.bufs :=
  foldl_freeBuf_freed s.reg.bufs s.alloc

lemma teardown_alloc_live (s : Scope) (h : s.alloc.live = s.reg.bufs) :
    (teardown s).alloc.live = [] :=
  foldl_freeBuf_live_nil s.reg.bufs s.alloc h

lemma teardown_reg_bufs (s : Scope) : (teardown s).reg.bufs = [] := rfl

lemma teardown_adp_handle (s : Scope) : (teardown s).adp.handle = [] := by
  by_cases h : s.adp.handle = [] <;> simp [teardown, release, h]

lemma teardown_regLog (s : Scope) : (teardown s).regLog = s.regLog := rfl

lemma teardown_tdCount (s : Scope) : (teardown s).tdCount = s.tdCount + 1 := rfl

lemma appendHeader_tdCount (st : HeaderStep) (s : Scope) :
    ((appendHeader st s).1).tdCount = s.tdCount := by
  cases hf : st.fmtOk <;> cases hr : st.regOk <;> cases hfo : st.foreignOk <;>
    simp [appendHeader, register, listAppend, allocBuf, freeBuf, hf, hr, hfo]

lemma appendHeaders_tdCount (steps : List HeaderStep) (s : Scope) :
    ((appendHeaders steps s).1).tdCount = s.tdCount := by
  induction steps generalizing s with
  | nil => rfl
  | cons st tl ih =>
    rcases h : appendHeader st s with ⟨s1, e⟩
    have h1 : s1.tdCount = s.tdCount := by
      have h2 := appendHeader_tdCount st s
      rw [h] at h2
      exact h2
    cases e with
    | none => simpa [appendHeaders, h] using (ih s1).trans h1
    | some e => simp [appendHeaders, h, h1]

/-- A fully successful run of header construction: every buffer id in
`range' nextId n` is allocated, registered, and appended to the foreign
list, in lockstep, with no release call made. -/
lemma appendHeaders_okSteps (hdrs : List (String × String)) (s : Scope) :
    appendHeaders (okSteps hdrs) s =
      ({ alloc := { nextId := s.alloc.nextId + hdrs.length
                  , store := s.alloc.store ++
                      hdrs.map (fun kv => formatHeader kv.1 kv.2)
                  , live := s.alloc.live ++ List.range' s.alloc.nextId hdrs.length
                  , freed := s.alloc.freed }
        , reg := { bufs := s.reg.bufs ++ List.range' s.alloc.nextId hdrs.length }
        , adp := { handle := s.adp.handle ++ List.range' s.alloc.nextId hdrs.length
                 , foreignFrees := s.adp.foreignFrees }
        , regLog := s.regLog ++ List.range' s.alloc.nextId hdrs.length
        , tdCount := s.tdCount }, none) := by
  induction hdrs generalizing s with
  | nil => simp [okSteps, appendHeaders]
  | cons kv tl ih =>
    simp only [okSteps, List.map_cons, appendHeaders, appendHeader, okStep,
      register, listAppend, allocBuf, formatHeader]
    norm_num
    rw [show (tl.map okStep) = okSteps tl from rfl, ih]
    simp [List.range'_succ, Nat.add_assoc, Nat.add_comm, Nat.add_left_comm]
    intro a b _
    rfl

lemma self_not_mem_range' (n : Nat) : n ∉ List.range' 0 n := by
  rw [List.mem_range']
  rintro ⟨i, hi, he⟩
  omega

lemma range'_append_self_nodup (n : Nat) : (List.range' 0 n ++ [n]).Nodup := by
  have h : List.range' 0 n ++ [n] = List.range' 0 (n + 1) := by
    simpa using (@List.range'_concat 1 0 n).symm
  rw [h]
  simp [List.nodup_range']

lemma cons_range'_nodup (n : Nat) : (n :: List.range' 0 n).Nodup := by
  rw [List.nodup_cons]
  exact ⟨self_not_mem_range' n, by simp [List.nodup_range']⟩

/-- `appendHeaders_okSteps` specialised to the initial scope of a request. -/
lemma appendHeaders_okSteps_init (hdrs : List (String × String)) :
    appendHeaders (okSteps hdrs) initScope =
      ({ alloc := { nextId := hdrs.length
                  , store := hdrs.map (fun kv => formatHeader kv.1 kv.2)
                  , live := List.range' 0 hdrs.length
                  , freed := [] }
        , reg := { bufs := List.range' 0 hdrs.length }
        , adp := { handle := List.range' 0 hdrs.length, foreignFrees := 0 }
        , regLog := List.range' 0 hdrs.length
        , tdCount := 0 }, none) := by
  simpa [initScope] using appendHeaders_okSteps hdrs initScope

/-- A fully successful request reduces to the teardown of the fully built
scope; the transfer outcome only decides the returned error. -/
lemma performRequest_ok_eval (hdrs : List (String × String)) (transferOk : Bool) :
    performRequest (okSteps hdrs) transferOk =
      (teardown
        { alloc := { nextId := hdrs.length
                   , store := hdrs.map (fun kv => formatHeader kv.1 kv.2)
                   , live := List.range' 0 hdrs.length
                   , freed := [] }
        , reg := { bufs := List.range' 0 hdrs.length }
        , adp := { handle := List.range' 0 hdrs.length, foreignFrees := 0 }
        , regLog := List.range' 0 hdrs.length
        , tdCount := 0 },
       if transferOk then none else some HError.transferFailed) := by
  simp [performRequest, appendHeaders_okSteps_init, transfer]

/- ## Theorems about the builder model -/

/-- C1: for every sequence of N header pairs successfully appended (on either
transfer outcome, i.e. on every exit path of the scope), exactly N buffers
are registered, and after teardown the release calls are exactly one per
registered buffer — no buffer leaked (`live = []`), none freed twice
(`freed` has no duplicates). -/
theorem exact_release_per_header (hdrs : List (String × String)) (transferOk : Bool) :
    ((performRequest (okSteps hdrs) transferOk).1.regLog).length = hdrs.length ∧
    (performRequest (okSteps hdrs) transferOk).1.alloc.freed =
      (performRequest (okSteps hdrs) transferOk).1.regLog ∧
    ((performRequest (okSteps hdrs) transferOk).1.alloc.freed).Nodup ∧
    (performRequest (okSteps hdrs) transferOk).1.alloc.live = [] := by
  rw [performRequest_ok_eval]
  refine ⟨?_, ?_, ?_, ?_⟩
  · simp [teardown_regLog]
  · rw [teardown_alloc_freed, teardown_regLog]
    simp
  · rw [teardown_alloc_freed]
    simp [List.nodup_range']
  · exact teardown_alloc_live _ rfl

/-- C2: for every step sequence and every transfer outcome — normal return,
construction failure, or transfer failure — the combined teardown executes
exactly once at scope exit: the teardown counter of the final state is 1,
the registry sequence has been emptied, and the adapter handle has been
reset to the empty sentinel. -/
theorem teardown_on_every_exit (steps : List HeaderStep) (transferOk : Bool) :
    (performRequest steps transferOk).1.tdCount = 1 ∧
    (performRequest steps transferOk).1.reg.bufs = [] ∧
    (performRequest steps transferOk).1.adp.handle = [] := by
  rcases h : appendHeaders steps initScope with ⟨s1, e⟩
  have h1 : s1.tdCount = 0 := by
    have h2 := appendHeaders_tdCount steps initScope
    rw [h] at h2
    exact h2
  cases e with
  | some e =>
    simp [performRequest, h, teardown_tdCount, teardown_reg_bufs,
      teardown_adp_handle, h1]
  | none =>
    simp [performRequest, h, transfer, teardown_tdCount, teardown_reg_bufs,
      teardown_adp_handle, h1]

/-- C3: `register` either succeeds (appending the buffer to the owned
sequence) or fails with `OutOfMemory` only; on failure the registry is
unchanged, so ownership of the buffer remains with the caller. -/
theorem register_contract (regOk : Bool) (r : StringRegistry) (b : Nat) :
    ((register regOk r b).2 = none ∨
      (register regOk r b).2 = some HError.outOfMemory) ∧
    (∀ e, (register regOk r b).2 = some e →
      e = HError.outOfMemory ∧ (register regOk r b).1 = r) ∧
    ((register regOk r b).2 = none →
      (register regOk r b).1.bufs = r.bufs ++ [b]) := by
  cases regOk <;> simp [register]

/-- Witness for C3 at a concrete failing registration: `OutOfMemory` is
signalled and the registry is left unchanged. -/
theorem register_contract_witness :
    (register false { bufs := [] } 0).1 = { bufs := [] } ∧
    (register false { bufs := [] } 0).2 = some HError.outOfMemory :=
  ⟨((register_contract false { bufs := [] } 0).2.1 HError.outOfMemory
      (by decide)).2,
   by decide⟩

/-- C5: `releaseAll` records one release per owned buffer through the
registry's own allocator state, preserves the rest of the allocator, empties
the sequence, and is a no-op performing zero frees on an empty registry. -/
theorem releaseAll_contract (a : AllocState) (r : StringRegistry) :
    (releaseAll a r).2.bufs = [] ∧
    (releaseAll a r).1.freed = a.freed ++ r.bufs ∧
    (releaseAll a r).1.nextId = a.nextId ∧
    (releaseAll a r).1.store = a.store ∧
    (r.bufs = [] → releaseAll a r = (a, r)) := by
  refine ⟨rfl, foldl_freeBuf_freed r.bufs a, foldl_freeBuf_nextId r.bufs a,
    foldl_freeBuf_store r.bufs a, ?_⟩
  intro h
  cases r
  simp_all [releaseAll]

/-- Witness for C5 at a concrete empty registry: `releaseAll` performs no
release call and does not change any state. -/
theorem releaseAll_contract_witness :
    releaseAll { nextId := 5, store := ["x"], live := [], freed := [3] }
        { bufs := [] } =
      ({ nextId := 5, store := ["x"], live := [], freed := [3] },
       { bufs := [] }) :=
  (releaseAll_contract { nextId := 5, store := ["x"], live := [], freed := [3] }
    { bufs := [] }).2.2.2.2 rfl

lemma appendHeader_handle_owned (st : HeaderStep) (s : Scope)
    (hinv : ∀ b ∈ s.adp.handle, b ∈ s.reg.bufs) :
    ∀ b ∈ ((appendHeader st s).1).adp.handle,
      b ∈ ((appendHeader st s).1).reg.bufs := by
  intro b hb
  cases hf : st.fmtOk with
  | false =>
    rw [show (appendHeader st s).1 = s by simp [appendHeader, hf]] at hb ⊢
    exact hinv b hb
  | true =>
    cases hr : st.regOk with
    | false =>
      have hs : (appendHeader st s).1 =
          { s with alloc := freeBuf (allocBuf s.alloc
              (formatHeader st.key st.value)).2 s.alloc.nextId } := by
        simp [appendHeader, register, allocBuf, hf, hr]
      rw [hs] at hb ⊢
      exact hinv b hb
    | true =>
      cases hfo : st.foreignOk with
      | false =>
        have hs : (appendHeader st s).1.adp = s.adp ∧
            (appendHeader st s).1.reg.bufs = s.reg.bufs ++ [s.alloc.nextId] := by
          constructor <;> simp [appendHeader, register, listAppend, allocBuf, hf, hr, hfo]
        rw [hs.1] at hb
        rw [hs.2]
        exact List.mem_append_left _ (hinv b hb)
      | true =>
        have hs : (appendHeader st s).1.adp.handle =
              s.adp.handle ++ [s.alloc.nextId] ∧
            (appendHeader st s).1.reg.bufs = s.reg.bufs ++ [s.alloc.nextId] := by
          constructor <;> simp [appendHeader, register, listAppend, allocBuf, hf, hr, hfo]
        rw [hs.1] at hb
        rw [hs.2]
        rcases List.mem_append.1 hb with hb | hb
        · exact List.mem_append_left _ (hinv b hb)
        · exact List.mem_append_right _ hb

lemma appendHeaders_handle_owned (steps : List HeaderStep) (s : Scope)
    (hinv : ∀ b ∈ s.adp.handle, b ∈ s.reg.bufs) :
    ∀ b ∈ ((appendHeaders steps s).1).adp.handle,
      b ∈ ((appendHeaders steps s).1).reg.bufs := by
  induction steps generalizing s with
  | nil => exact hinv
  | cons st tl ih =>
    rcases h : appendHeader st s with ⟨s1, e⟩
    have h1 : ∀ b ∈ s1.adp.handle, b ∈ s1.reg.bufs := by
      have h2 := appendHeader_handle_owned st s hinv
      rw [h] at h2
      exact h2
    cases e with
    | none => simpa [appendHeaders, h] using ih s1 h1
    | some e => simpa [appendHeaders, h] using h1

/-- C6: registry and foreign list are populated in lockstep, the registry
first — at every point during construction (any step sequence, failures
included) every buffer id held in the foreign list handle is already owned
by the registry. -/
theorem foreign_list_owned_by_registry (steps : List HeaderStep) :
    ∀ b ∈ ((appendHeaders steps initScope).1).adp.handle,
      b ∈ ((appendHeaders steps initScope).1).reg.bufs :=
  appendHeaders_handle_owned steps initScope (by simp [initScope])

/-- Witness for C6 at a concrete construction: the buffer appended to the
foreign list is owned by the registry. -/
theorem foreign_list_owned_by_registry_witness :
    0 ∈ ((appendHeaders [okStep ("Content-Type", "application/json")]
        initScope).1).reg.bufs :=
  foreign_list_owned_by_registry [okStep ("Content-Type", "application/json")]
    0 (by decide)

/-- C7: `release` frees the foreign list handle iff it is non-empty and
resets it to the empty sentinel, so a second `release` is a guaranteed
no-op: releasing twice is observably equal to releasing once. -/
theorem release_idempotent (adp : ForeignListAdapter) :
    (release adp).handle = [] ∧
    release (release adp) = release adp ∧
    (adp.handle = [] → release adp = adp) ∧
    (adp.handle ≠ [] →
      (release adp).foreignFrees = adp.foreignFrees + 1) := by
  by_cases h : adp.handle = [] <;> simp [release, h]

/-- Witness for C7 at a concrete non-empty adapter: the first release frees
the list once, and a second release changes nothing. -/
theorem release_idempotent_witness :
    (release { handle := [1], foreignFrees := 0 }).foreignFrees = 0 + 1 ∧
    release (release { handle := [1], foreignFrees := 0 }) =
      release { handle := [1], foreignFrees := 0 } :=
  ⟨(release_idempotent { handle := [1], foreignFrees := 0 }).2.2.2 (by decide),
   (release_idempotent { handle := [1], foreignFrees := 0 }).2.1⟩

lemma appendHeaders_append_ok (xs ys : List HeaderStep) (s s1 : Scope)
    (h : appendHeaders xs s = (s1, none)) :
    appendHeaders (xs ++ ys) s = appendHeaders ys s1 := by
  induction xs generalizing s with
  | nil =>
    simp only [appendHeaders, Prod.mk.injEq] at h
    rw [List.nil_append, h.1]
  | cons st tl ih =>
    rcases hst : appendHeader st s with ⟨s2, e⟩
    cases e with
    | none =>
      have h2 : appendHeaders tl s2 = (s1, none) := by
        simpa [appendHeaders, hst] using h
      simpa [appendHeaders, hst] using ih s2 h2
    | some e => simp [appendHeaders, hst] at h

/-- Properties of a request whose header construction fails: the teardown
still runs once and releases everything the failing state owned. -/
lemma teardown_props (s1 : Scope) (err : HError) (transferOk : Bool)
    (steps : List HeaderStep)
    (happ : appendHeaders steps initScope = (s1, some err))
    (hlive : s1.alloc.live = s1.reg.bufs)
    (hnd : (s1.alloc.freed ++ s1.reg.bufs).Nodup)
    (htd : s1.tdCount = 0)
    (hsub : ∀ b ∈ s1.regLog, b ∈ s1.alloc.freed ++ s1.reg.bufs) :
    (performRequest steps transferOk).1.alloc.live = [] ∧
    ((performRequest steps transferOk).1.alloc.freed).Nodup ∧
    (performRequest steps transferOk).1.adp.handle = [] ∧
    (performRequest steps transferOk).1.tdCount = 1 ∧
    (performRequest steps transferOk).1.regLog = s1.regLog ∧
    (∀ b ∈ (performRequest steps transferOk).1.regLog,
      b ∈ (performRequest steps transferOk).1.alloc.freed) ∧
    (performRequest steps transferOk).2 = some err := by
  have hpr : performRequest steps transferOk = (teardown s1, some err) := by
    simp [performRequest, happ]
  rw [hpr]
  refine ⟨teardown_alloc_live s1 hlive,
    by rw [teardown_alloc_freed]; exact hnd,
    teardown_adp_handle s1,
    by rw [teardown_tdCount, htd],
    teardown_regLog s1,
    ?_, rfl⟩
  intro b hb
  rw [teardown_regLog] at hb
  rw [teardown_alloc_freed]
  exact hsub b hb

/-- The step list of the C4 counterexample: three headers, the second of
which fails at the foreign append primitive (K = 2 of N = 3). -/
def cexSteps : List HeaderStep :=
  [ okStep ("Content-Type", "application/json")
  , { key := "Accept", value := "application/json"
    , fmtOk := true, regOk := true, foreignOk := false }
  , okStep ("Host", "example.org") ]

/-- C4 counterexample: with `appendHeader` failing at the K = 2nd of N = 3
headers through `ForeignAppendFailed`, teardown performs 2 release calls —
the K−1 = 1 previously registered buffer plus the Kth buffer, which was
already registered before the foreign append was attempted — so the claimed
"exactly K−1 releases" is false on this input. -/
theorem kth_failure_release_count_cex :
    (performRequest cexSteps true).2 = some HError.foreignAppendFailed ∧
    ((performRequest cexSteps true).1.alloc.freed).length = 2 ∧
    ((performRequest cexSteps true).1.alloc.freed).length ≠ 2 - 1 := by
  decide

/-- C4 (amended): if `appendHeader` fails on the Kth header, construction
aborts and the teardown that still runs releases every registered buffer and
frees the partial list handle, leaking nothing and freeing nothing twice.
The number of registered buffers released is K−1 when the failure is
`OutOfMemory` (formatting or registration), and K when it is
`ForeignAppendFailed`, because the Kth buffer is registered before the
foreign append is attempted. -/
theorem kth_failure_teardown_releases_registered
    (hdrs : List (String × String)) (st : HeaderStep) (rest : List HeaderStep)
    (transferOk : Bool)
    (hfail : st.fmtOk = false ∨ st.regOk = false ∨ st.foreignOk = false) :
    ((performRequest (okSteps hdrs ++ st :: rest) transferOk).2 =
        some HError.outOfMemory ∨
      (performRequest (okSteps hdrs ++ st :: rest) transferOk).2 =
        some HError.foreignAppendFailed) ∧
    ((performRequest (okSteps hdrs ++ st :: rest) transferOk).1.regLog).length =
      (if st.fmtOk && st.regOk then hdrs.length + 1 else hdrs.length) ∧
    (∀ b ∈ (performRequest (okSteps hdrs ++ st :: rest) transferOk).1.regLog,
      b ∈ (performRequest (okSteps hdrs ++ st :: rest) transferOk).1.alloc.freed) ∧
    ((performRequest (okSteps hdrs ++ st :: rest) transferOk).1.alloc.freed).Nodup ∧
    (performRequest (okSteps hdrs ++ st :: rest) transferOk).1.alloc.live = [] ∧
    (performRequest (okSteps hdrs ++ st :: rest) transferOk).1.adp.handle = [] ∧
    (performRequest (okSteps hdrs ++ st :: rest) transferOk).1.tdCount = 1 := by
  have hbase := appendHeaders_append_ok (okSteps hdrs) (st :: rest) initScope _
    (appendHeaders_okSteps_init hdrs)
  cases hf : st.fmtOk with
  | false =>
    -- the Kth header fails while formatting: state unchanged, OutOfMemory
    have happ : appendHeaders (okSteps hdrs ++ st :: rest) initScope =
        ({ alloc := { nextId := hdrs.length
                    , store := hdrs.map (fun kv => formatHeader kv.1 kv.2)
                    , live := List.range' 0 hdrs.length
                    , freed := [] }
         , reg := { bufs := List.range' 0 hdrs.length }
         , adp := { handle := List.range' 0 hdrs.length, foreignFrees := 0 }
         , regLog := List.range' 0 hdrs.length
         , tdCount := 0 }, some HError.outOfMemory) := by
      rw [hbase]
      simp [appendHeaders, appendHeader, hf]
    have hp := teardown_props _ _ transferOk _ happ rfl
      (by simp [List.nodup_range']) rfl
      (by intro b hb; simp at hb ⊢; omega)
    refine ⟨Or.inl hp.2.2.2.2.2.2, ?_, hp.2.2.2.2.2.1, hp.2.1, hp.1,
      hp.2.2.1, hp.2.2.2.1⟩
    rw [hp.2.2.2.2.1]
    simp [hf]
  | true =>
    cases hr : st.regOk with
    | false =>
      -- the Kth header fails while registering: the caller frees the buffer
      have herase :
          (List.range' 0 hdrs.length ++ [hdrs.length]).erase hdrs.length =
            List.range' 0 hdrs.length := by
        rw [List.erase_append_right _ (self_not_mem_range' _),
          List.erase_cons_head, List.append_nil]
      have happ : appendHeaders (okSteps hdrs ++ st :: rest) initScope =
          ({ alloc := { nextId := hdrs.length + 1
                      , store := hdrs.map (fun kv => formatHeader kv.1 kv.2) ++
                          [formatHeader st.key st.value]
                      , live := List.range' 0 hdrs.length
                      , freed := [hdrs.length] }
           , reg := { bufs := List.range' 0 hdrs.length }
           , adp := { handle := List.range' 0 hdrs.length, foreignFrees := 0 }
           , regLog := List.range' 0 hdrs.length
           , tdCount := 0 }, some HError.outOfMemory) := by
        rw [hbase]
        simp [appendHeaders, appendHeader, register, allocBuf, freeBuf,
          hf, hr, herase]
      have hp := teardown_props _ _ transferOk _ happ rfl
        (by simpa using cons_range'_nodup hdrs.length) rfl
        (by intro b hb; simp at hb ⊢; omega)
      refine ⟨Or.inl hp.2.2.2.2.2.2, ?_, hp.2.2.2.2.2.1, hp.2.1, hp.1,
        hp.2.2.1, hp.2.2.2.1⟩
      rw [hp.2.2.2.2.1]
      simp [hf, hr]
    | true =>
      cases ho : st.foreignOk with
      | false =>
        -- the Kth header fails at the foreign append: it stays registered
        have happ : appendHeaders (okSteps hdrs ++ st :: rest) initScope =
            ({ alloc := { nextId := hdrs.length + 1
                        , store := hdrs.map (fun kv => formatHeader kv.1 kv.2) ++
                            [formatHeader st.key st.value]
                        , live := List.range' 0 hdrs.length ++ [hdrs.length]
                        , freed := [] }
             , reg := { bufs := List.range' 0 hdrs.length ++ [hdrs.length] }
             , adp := { handle := List.range' 0 hdrs.length, foreignFrees := 0 }
             , regLog := List.range' 0 hdrs.length ++ [hdrs.length]
             , tdCount := 0 }, some HError.foreignAppendFailed) := by
          rw [hbase]
          simp [appendHeaders, appendHeader, register, listAppend, allocBuf,
            hf, hr, ho]
        have hp := teardown_props _ _ transferOk _ happ rfl
          (by simpa using range'_append_self_nodup hdrs.length) rfl
          (by intro b hb; simp at hb ⊢; omega)
        refine ⟨Or.inr hp.2.2.2.2.2.2, ?_, hp.2.2.2.2.2.1, hp.2.1, hp.1,
          hp.2.2.1, hp.2.2.2.1⟩
        rw [hp.2.2.2.2.1]
        simp [hf, hr]
      | true =>
        rcases hfail with h | h | h
        · rw [hf] at h
          exact absurd h (by simp)
        · rw [hr] at h
          exact absurd h (by simp)
        · rw [ho] at h
          exact absurd h (by simp)

/-- Witness for the amended C4 at a concrete input: the second of two
headers fails at the foreign append, both registered buffers are released,
and teardown ran once. -/
theorem kth_failure_teardown_releases_registered_witness :
    ((performRequest (okSteps [("A", "1")] ++
        ({ key := "B", value := "2", fmtOk := true, regOk := true
         , foreignOk := false } : HeaderStep) :: []) true).1.regLog).length = 2 ∧
    (performRequest (okSteps [("A", "1")] ++
        ({ key := "B", value := "2", fmtOk := true, regOk := true
         , foreignOk := false } : HeaderStep) :: []) true).1.tdCount = 1 := by
  have h := kth_failure_teardown_releases_registered [("A", "1")]
    { key := "B", value := "2", fmtOk := true, regOk := true, foreignOk := false }
    [] true (Or.inr (Or.inr rfl))
  exact ⟨by simpa using h.2.1, h.2.2.2.2.2.2⟩

end HeaderFix
